import Mathlib

/-!
Shallow embedding of the event-driven backtesting engine in
`backtester_xbtusd_mac.py`: tick data, orders, the position ledger, the
moving-average-crossover strategy, order matching and the per-tick
dispatch loop, together with theorems about the specified properties.

Modelling conventions:
* prices, quantities and cash are exact rationals (`ℚ`); timestamps are
  naturals (the source uses dates, only their order matters);
* the single traded symbol's `MarketData` container is a `TickData`
  value; the per-symbol `positions` dictionary is an `Option Position`;
* a Python float that may be NaN is an `Option ℚ` with `none` for NaN:
  multiplication propagates `none` and every comparison against `none`
  is `false`, exactly the IEEE behaviour the source relies on;
* `sys.exit` on insufficient balance is a `halted : Bool` flag threaded
  through every caller; once it is set no further processing happens.
-/

namespace Backtest

/-- `STARTING_CASH` constant from the source. -/
def STARTING_CASH : ℚ := 1000000

/-- `NUM_CONTRACTS` constant from the source. -/
def NUM_CONTRACTS : ℚ := 100

/-- The `MarketData` container for the single traded symbol after
`add_last_price`/`add_open_price` have stored one tick: timestamp,
open price, last (close) price and volume. -/
structure TickData where
  timestamp : ℕ
  open_price : ℚ
  last_price : ℚ
  total_volume : ℚ
deriving DecidableEq

/-- `Order` from the source.  `filled_qty` is initialised to 0 and, as in
the source, never updated; `is_order_unmatched` assigns the (new)
attribute `filled_timestamp`, modelled as an `Option ℕ`. -/
structure Order where
  timestamp : ℕ
  symbol : String
  qty : ℚ
  price : ℚ := 0
  is_buy : Bool
  is_market_order : Bool
  is_filled : Bool := false
  filled_price : ℚ := 0
  filled_timestamp : Option ℕ := none
  filled_qty : ℚ := 0
deriving DecidableEq

/-- `Position` from the source; the field defaults are the constructor's
initial values. -/
structure Position where
  symbol : String := ""
  buys : ℚ := 0
  sells : ℚ := 0
  net : ℚ := 0
  realized_pnl : ℚ := 0
  unrealized_pnl : ℚ := 0
  position_value : ℚ := 0
  equity : ℚ := STARTING_CASH
deriving DecidableEq

/-- `Position.event_fill`: update buy/sell totals, the signed notional
`position_value`, and snapshot `realized_pnl` when the net position
returns to zero.  The timestamp argument is unused, as in the source. -/
def Position.event_fill (p : Position) (_timestamp : ℕ) (is_buy : Bool)
    (qty price : ℚ) : Position :=
  let buys := if is_buy then p.buys + qty else p.buys
  let sells := if is_buy then p.sells else p.sells + qty
  let net := buys - sells
  let position_value := p.position_value + qty * price * (if is_buy then -1 else 1)
  let realized_pnl := if net = 0 then position_value else p.realized_pnl
  { p with buys := buys, sells := sells, net := net,
           position_value := position_value, realized_pnl := realized_pnl }

/-- `Position.update_unrealized_pnl`. -/
def Position.update_unrealized_pnl (p : Position) (price : ℚ) : Position :=
  if p.net = 0 then { p with unrealized_pnl := 0 }
  else { p with unrealized_pnl := price * p.net + p.position_value }

/-- `Position.update_equity`. -/
def Position.update_equity (p : Position) (price cash : ℚ) : Position :=
  { p with equity := cash + price * p.net }

/-- Float `a * b` where either operand may be NaN. -/
def fltMul : Option ℚ → Option ℚ → Option ℚ
  | some a, some b => some (a * b)
  | _, _ => none

/-- Float negation; NaN stays NaN. -/
def fltNeg : Option ℚ → Option ℚ
  | some a => some (-a)
  | none => none

/-- Float `a > b`: false whenever either side is NaN. -/
def fltGt : Option ℚ → Option ℚ → Bool
  | some a, some b => decide (b < a)
  | _, _ => false

/-- Float `a < b`: false whenever either side is NaN. -/
def fltLt : Option ℚ → Option ℚ → Bool
  | some a, some b => decide (a < b)
  | _, _ => false

/-- One row of the strategy's `prices` DataFrame: index timestamp and the
`close` and `open` columns written by `store_prices`. -/
structure PriceRow where
  ts : ℕ
  close : ℚ
  openp : ℚ
deriving DecidableEq

/-- `df.loc[ts] = (close, open)`: update the row with index `ts` in place
if it exists, otherwise append a new row. -/
def storeRow : List PriceRow → ℕ → ℚ → ℚ → List PriceRow
  | [], ts, c, o => [⟨ts, c, o⟩]
  | r :: rest, ts, c, o =>
    if r.ts = ts then ⟨ts, c, o⟩ :: rest else r :: storeRow rest ts c o

/-- `MACStrategy` state (the base `Strategy` only carries the order
callback, which is modelled by returning the sent orders). -/
structure MACStrategy where
  symbol : String
  lookback_intervals : ℕ := 20
  buy_threshold : ℚ := -3/2
  sell_threshold : ℚ := 3/2
  prices : List PriceRow := []
  is_long : Bool := false
  is_short : Bool := false
deriving DecidableEq

/-- `store_prices`: record this tick's close and open under its
timestamp. -/
def MACStrategy.store_prices (s : MACStrategy) (md : TickData) : MACStrategy :=
  { s with prices := storeRow s.prices md.timestamp md.last_price md.open_price }

/-- The stored close-price series, in row order. -/
def MACStrategy.closes (s : MACStrategy) : List ℚ :=
  s.prices.map PriceRow.close

/-- Numerator of the last value of pandas `Series.ewm(span).mean()` with
the default `adjust=True`: each observation weighted by
`(1-**alpha**)^(age)`, the newest having age 0. -/
def ewmWeightedSum (a : ℚ) : List ℚ → ℚ
  | [] => 0
  | x :: rest => x * (1 - a) ^ rest.length + ewmWeightedSum a rest

/-- Denominator of the adjusted EWM mean over `n` observations:
the geometric sum of the weights. -/
def ewmWeightTotal (a : ℚ) : ℕ → ℚ
  | 0 => 0
  | n + 1 => (1 - a) ^ n + ewmWeightTotal a n

/-- Last entry of `Series.ewm(span).mean()` (pandas default
`adjust=True`), as used by `calculate_mac` via `ma[-1]`. -/
def ewmLast (a : ℚ) (xs : List ℚ) : ℚ :=
  ewmWeightedSum a xs / ewmWeightTotal a xs.length

/-- `calculate_mac`: difference of the fast and slow exponentially
weighted means of the whole stored close series, with
`alpha = 2/(span+1)` from pandas' `span` parameter. -/
def MACStrategy.calculate_mac (s : MACStrategy) (fast_window slow_window : ℕ) : ℚ :=
  let af : ℚ := 2 / ((fast_window : ℚ) + 1)
  let al : ℚ := 2 / ((slow_window : ℚ) + 1)
  ewmLast af s.closes - ewmLast al s.closes

/-- `Series.diff().dropna()`: consecutive first differences. -/
def diffs : List ℚ → List ℚ
  | [] => []
  | [_] => []
  | x :: y :: rest => (y - x) :: diffs (y :: rest)

/-- `df[-n:]`: the last `n` elements. -/
def takeLast {α : Type} (n : ℕ) (xs : List α) : List α :=
  xs.drop (xs.length - n)

/-- Arithmetic mean of a list of rationals. -/
def listMean (xs : List ℚ) : ℚ := xs.sum / (xs.length : ℚ)

/-- Sample variance with `ddof = 1`, the square of pandas
`Series.std()`. -/
def sampleVar (xs : List ℚ) : ℚ :=
  (xs.map (fun x => (x - listMean xs) ^ 2)).sum / ((xs.length : ℚ) - 1)

/-- `calculate_volatility`: standard deviation of the first differences
of the last `lookback_intervals` closes.  `Series.std()` (with `ddof=1`)
is NaN when fewer than two differences exist, modelled as `none`; when
it is defined it is a square root, irrational in general, so the `some`
payload carries the exact *variance* instead of the standard deviation.
Only definedness ever reaches the control flow: the one caller
multiplies the result by the literal 0, and `0 * v` is exactly 0 for
every defined `v ≥ 0` and NaN for NaN, for variance and standard
deviation alike. -/
def MACStrategy.calculate_volatility (s : MACStrategy) : Option ℚ :=
  let recent := takeLast s.lookback_intervals s.prices
  let returns := diffs (recent.map PriceRow.close)
  if returns.length < 2 then none else some (sampleVar returns)

/-- The order built by `Strategy.send_market_order`. -/
def MACStrategy.mkOrder (s : MACStrategy) (is_buy : Bool) (ts : ℕ) : Order :=
  { timestamp := ts, symbol := s.symbol, qty := NUM_CONTRACTS,
    is_buy := is_buy, is_market_order := true }

/-- `on_buy_signal`: send a market buy unless already long. -/
def MACStrategy.on_buy_signal (s : MACStrategy) (ts : ℕ) : List Order :=
  if s.is_long = false then [s.mkOrder true ts] else []

/-- `on_sell_signal`: send a market sell unless already short. -/
def MACStrategy.on_sell_signal (s : MACStrategy) (ts : ℕ) : List Order :=
  if s.is_short = false then [s.mkOrder false ts] else []

/-- `on_tick_event`: store the tick, compute the crossover signal and the
threshold `volatility_fraction * volatility` (the fraction is the
literal 0 in the source, and `0 * NaN` is NaN), then fire at most one of
the buy/sell handlers.  Returns the updated strategy together with the
orders sent through `event_sendorder`.  The commented-out lookback guard
of the source is omitted, as in the source. -/
def MACStrategy.on_tick_event (s : MACStrategy) (md : TickData) :
    MACStrategy × List Order :=
  let s := s.store_prices md
  let volatility_fraction : ℚ := 0
  let signal_value := s.calculate_mac 20 50
  let timestamp := md.timestamp
  let signal_threshold := fltMul (some volatility_fraction) s.calculate_volatility
  if fltGt (some signal_value) signal_threshold then
    (s, s.on_buy_signal timestamp)
  else if fltLt (some signal_value) (fltNeg signal_threshold) then
    (s, s.on_sell_signal timestamp)
  else (s, [])

/-- `update_position_status`: refresh the long/short flags from the
positions dictionary (a no-op when the symbol has no position yet). -/
def MACStrategy.update_position_status (s : MACStrategy)
    (position : Option Position) : MACStrategy :=
  match position with
  | some p => { s with is_long := if 0 < p.net then true else false,
                       is_short := if p.net < 0 then true else false }
  | none => s

/-- `Backtester` state.  `position` models the per-symbol `positions`
dictionary for the single traded symbol (`none` = absent), the three
DataFrames are timestamp-keyed series, and `cash` is the account
balance added to the engine. -/
structure Backtester where
  target_symbol : String
  strategy : MACStrategy
  unfilled_orders : List Order := []
  position : Option Position := none
  current_prices : Option TickData := none
  rpnl : List (ℕ × ℚ) := []
  upnl : List (ℕ × ℚ) := []
  cash : ℚ := STARTING_CASH
  equity_curve : List (ℕ × ℚ) := []
deriving DecidableEq

/-- `df.loc[ts, col] = v` on a single-column frame: update the row with
index `ts` if present, else append. -/
def dfSet : List (ℕ × ℚ) → ℕ → ℚ → List (ℕ × ℚ)
  | [], ts, v => [(ts, v)]
  | r :: rest, ts, v => if r.1 = ts then (ts, v) :: rest else r :: dfSet rest ts v

/-- `get_timestamp`: timestamp of the current prices container (only
called after `handle_incoming_tick` has set it; the default 0 is for
totality). -/
def Backtester.get_timestamp (b : Backtester) : ℕ :=
  (b.current_prices.map TickData.timestamp).getD 0

/-- `get_position`: fetch the symbol's position, creating a fresh one on
first use. -/
def Backtester.get_position (b : Backtester) : Position :=
  match b.position with
  | some p => p
  | none => { symbol := b.target_symbol }

/-- `update_filled_position`: apply the fill to the position ledger,
refresh the strategy's long/short flags, record the realized-pnl sample,
then adjust cash; the `sys.exit` on a negative balance is the returned
`halted` flag.  Note the ledger, strategy flags and rpnl sample are all
written before cash is checked. -/
def Backtester.update_filled_position (b : Backtester) (qty : ℚ)
    (is_buy : Bool) (price : ℚ) (timestamp : ℕ) : Backtester × Bool :=
  let position := (b.get_position).event_fill timestamp is_buy qty price
  let strategy := b.strategy.update_position_status (some position)
  let rpnl := dfSet b.rpnl timestamp position.realized_pnl
  let cash := b.cash - qty * price * (if is_buy then 1 else -1)
  ({ b with position := some position, strategy := strategy,
            rpnl := rpnl, cash := cash },
   decide (cash < 0))

/-- `handle_order` (the `event_sendorder` callback): append to the
pending set. -/
def Backtester.handle_order (b : Backtester) (o : Order) : Backtester :=
  { b with unfilled_orders := b.unfilled_orders ++ [o] }

/-- The record `is_order_unmatched` leaves on a matched order: filled
flag, fill timestamp and the current tick's open price (`filled_qty` is
never written, see `Order`). -/
def fillRecord (o : Order) (t : TickData) : Order :=
  { o with is_filled := true, filled_timestamp := some t.timestamp,
           filled_price := t.open_price }

/-- Result of one pass of `match_order_book`'s list comprehension. -/
structure MatchResult where
  state : Backtester
  remaining : List Order
  fills : List Order
  halted : Bool
deriving DecidableEq

/-- The matching test of `is_order_unmatched`: a market order whose
submission timestamp is strictly below the current tick's. -/
def matchCondition (t : TickData) (o : Order) : Bool :=
  o.is_market_order && decide (o.timestamp < t.timestamp)

/-- One pass over the pending orders, calling `is_order_unmatched` on
each: an order is matched exactly when it is a market order and the
current tick's timestamp is strictly greater than its submission
timestamp; a matched order triggers `update_filled_position` at the
tick's open price for the full quantity (`strategy.event_order` is the
base class's `pass`).  A `sys.exit` from an insufficient balance aborts
the pass. -/
def matchOrders (t : TickData) : Backtester → List Order → MatchResult
  | b, [] => ⟨b, [], [], false⟩
  | b, o :: rest =>
    if matchCondition t o then
      let r := b.update_filled_position o.qty o.is_buy t.open_price t.timestamp
      if r.2 then ⟨r.1, [], [fillRecord o t], true⟩
      else
        let m := matchOrders t r.1 rest
        ⟨m.state, m.remaining, fillRecord o t :: m.fills, m.halted⟩
    else
      let m := matchOrders t b rest
      ⟨m.state, o :: m.remaining, m.fills, m.halted⟩

/-- `match_order_book`: when there are pending orders, keep only those
`is_order_unmatched` leaves unmatched.  When the pass is aborted by
`sys.exit` the list assignment never happens. -/
def Backtester.match_order_book (b : Backtester) (t : TickData) :
    Backtester × Bool :=
  if 0 < b.unfilled_orders.length then
    let m := matchOrders t b b.unfilled_orders
    if m.halted then (m.state, true)
    else ({ m.state with unfilled_orders := m.remaining }, false)
  else (b, false)

/-- `print_position_status`: when the symbol has a position, mark it to
market at the tick's close (`get_last_price`), appending the
unrealized-pnl and equity samples at the current timestamp. -/
def Backtester.print_position_status (b : Backtester) (t : TickData) :
    Backtester :=
  match b.position with
  | none => b
  | some position =>
    let close_price := t.last_price
    let position := position.update_unrealized_pnl close_price
    let upnl := dfSet b.upnl b.get_timestamp position.unrealized_pnl
    let position := position.update_equity close_price b.cash
    let equity_curve := dfSet b.equity_curve b.get_timestamp position.equity
    { b with position := some position, upnl := upnl,
             equity_curve := equity_curve }

/-- `handle_incoming_tick`: record the current prices, run the strategy
(submitting any orders it sends), match the order book, then report and
mark to market.  A `halted` matching pass ends the run at once. -/
def Backtester.handle_incoming_tick (b : Backtester) (t : TickData) :
    Backtester × Bool :=
  let b := { b with current_prices := some t }
  let sr := b.strategy.on_tick_event t
  let b := sr.2.foldl Backtester.handle_order { b with strategy := sr.1 }
  let mr := b.match_order_book t
  if mr.2 then (mr.1, true) else ((mr.1).print_position_status t, false)

/-- The state after the strategy phase of `handle_incoming_tick` (steps
before `match_order_book`). -/
def Backtester.afterStrategyPhase (b : Backtester) (t : TickData) :
    Backtester :=
  let b := { b with current_prices := some t }
  let sr := b.strategy.on_tick_event t
  sr.2.foldl Backtester.handle_order { b with strategy := sr.1 }

/-- `start_market_simulation` feeding ticks through
`handle_incoming_tick`; the first `sys.exit` aborts the whole loop. -/
def runTicks : Backtester → List TickData → Backtester × Bool
  | b, [] => (b, false)
  | b, t :: rest =>
    let r := b.handle_incoming_tick t
    if r.2 then (r.1, true) else runTicks r.1 rest

/-- The module-level liquidation block following `start_backtest`: send
an offsetting market order sized to the net position, then apply a fill
for it directly through `update_filled_position` at the *close* price of
the last tick, then `match_order_book` and `print_position_status`.
(The direct positions-dictionary access of the source presumes a
position exists; `get_position`'s create-on-first-use keeps the model
total.) -/
def Backtester.liquidate (b : Backtester) : Backtester × Bool :=
  match b.current_prices with
  | none => (b, false)
  | some prices =>
    let timestamp := b.get_timestamp
    let close_price := prices.last_price
    let position := b.get_position
    let direction := if position.net < 0 then true else false
    let order : Order := { timestamp := timestamp, symbol := b.target_symbol,
                           qty := |position.net|, is_buy := direction,
                           is_market_order := true }
    let b := b.handle_order order
    let r := b.update_filled_position |position.net| direction close_price timestamp
    if r.2 then (r.1, true)
    else
      let r2 := (r.1).match_order_book prices
      if r2.2 then (r2.1, true) else ((r2.1).print_position_status prices, false)

/-! ### Helper lemmas -/

/-- `on_tick_event` returns the strategy with this tick stored and no
other field changed. -/
theorem MACStrategy.on_tick_event_fst (s : MACStrategy) (md : TickData) :
    (s.on_tick_event md).1 = s.store_prices md := by
  simp only [MACStrategy.on_tick_event]
  split
  · rfl
  · split <;> rfl

/-- Submitting a batch of orders appends them to the pending set and
changes nothing else. -/
theorem foldl_handle_order (b : Backtester) (os : List Order) :
    os.foldl Backtester.handle_order b =
      { b with unfilled_orders := b.unfilled_orders ++ os } := by
  induction os generalizing b with
  | nil => simp
  | cons o rest ih =>
    show (Backtester.handle_order b o |> rest.foldl Backtester.handle_order) = _
    rw [ih]
    simp [Backtester.handle_order]

/-- `update_filled_position` touches only the position, the strategy's
long/short flags, the rpnl series and cash. -/
theorem ufp_preserves (b : Backtester) (q : ℚ) (ib : Bool) (pr : ℚ) (ts : ℕ) :
    ((b.update_filled_position q ib pr ts).1).strategy.prices = b.strategy.prices ∧
    ((b.update_filled_position q ib pr ts).1).current_prices = b.current_prices ∧
    ((b.update_filled_position q ib pr ts).1).upnl = b.upnl ∧
    ((b.update_filled_position q ib pr ts).1).equity_curve = b.equity_curve ∧
    ((b.update_filled_position q ib pr ts).1).unfilled_orders = b.unfilled_orders ∧
    ((b.update_filled_position q ib pr ts).1).target_symbol = b.target_symbol :=
  ⟨rfl, rfl, rfl, rfl, rfl, rfl⟩

/-- A matching pass touches only the position, strategy flags, rpnl and
cash of the threaded state. -/
theorem matchOrders_preserves (t : TickData) (os : List Order) (b : Backtester) :
    (matchOrders t b os).state.strategy.prices = b.strategy.prices ∧
    (matchOrders t b os).state.current_prices = b.current_prices ∧
    (matchOrders t b os).state.upnl = b.upnl ∧
    (matchOrders t b os).state.equity_curve = b.equity_curve ∧
    (matchOrders t b os).state.unfilled_orders = b.unfilled_orders ∧
    (matchOrders t b os).state.target_symbol = b.target_symbol := by
  induction os generalizing b with
  | nil => exact ⟨rfl, rfl, rfl, rfl, rfl, rfl⟩
  | cons o rest ih =>
    cases hc : matchCondition t o with
    | false =>
      simp only [matchOrders, hc, Bool.false_eq_true, if_false]
      exact ih b
    | true =>
      cases hr : (b.update_filled_position o.qty o.is_buy t.open_price t.timestamp).2 with
      | true =>
        simp only [matchOrders, hc, hr, if_true]
        exact ufp_preserves b o.qty o.is_buy t.open_price t.timestamp
      | false =>
        simp only [matchOrders, hc, hr, Bool.false_eq_true, if_true, if_false]
        obtain ⟨h1, h2, h3, h4, h5, h6⟩ :=
          ih ((b.update_filled_position o.qty o.is_buy t.open_price t.timestamp).1)
        obtain ⟨g1, g2, g3, g4, g5, g6⟩ :=
          ufp_preserves b o.qty o.is_buy t.open_price t.timestamp
        exact ⟨h1.trans g1, h2.trans g2, h3.trans g3, h4.trans g4,
               h5.trans g5, h6.trans g6⟩

/-- A matching pass that does not halt keeps exactly the orders failing
the match condition, and fills exactly those satisfying it, in order. -/
theorem matchOrders_remaining_fills (t : TickData) (os : List Order) (b : Backtester)
    (h : (matchOrders t b os).halted = false) :
    (matchOrders t b os).remaining = os.filter (fun o => !matchCondition t o) ∧
    (matchOrders t b os).fills =
      (os.filter (fun o => matchCondition t o)).map (fun o => fillRecord o t) := by
  induction os generalizing b with
  | nil => exact ⟨rfl, rfl⟩
  | cons o rest ih =>
    cases hc : matchCondition t o with
    | false =>
      simp only [matchOrders, hc, Bool.false_eq_true, if_false] at h ⊢
      obtain ⟨h1, h2⟩ := ih b h
      simp [List.filter_cons, hc, h1, h2]
    | true =>
      cases hr : (b.update_filled_position o.qty o.is_buy t.open_price t.timestamp).2 with
      | true =>
        simp only [matchOrders, hc, hr, if_true] at h
        cases h
      | false =>
        simp only [matchOrders, hc, hr, Bool.false_eq_true, if_true, if_false] at h ⊢
        obtain ⟨h1, h2⟩ :=
          ih ((b.update_filled_position o.qty o.is_buy t.open_price t.timestamp).1) h
        simp [List.filter_cons, hc, h1, h2]

/-- A matching pass in which no pending order satisfies the match
condition leaves the state untouched and fills nothing. -/
theorem matchOrders_no_match (t : TickData) (os : List Order) (b : Backtester)
    (h : ∀ o ∈ os, matchCondition t o = false) :
    matchOrders t b os = ⟨b, os, [], false⟩ := by
  induction os generalizing b with
  | nil => rfl
  | cons o rest ih =>
    have hc := h o (List.mem_cons_self o rest)
    simp only [matchOrders, hc, Bool.false_eq_true, if_false]
    rw [ih b (fun x hx => h x (List.mem_cons_of_mem o hx))]

/-- Marking to market never changes the trade totals. -/
theorem update_unrealized_pnl_fields (p : Position) (price : ℚ) :
    (p.update_unrealized_pnl price).net = p.net ∧
    (p.update_unrealized_pnl price).buys = p.buys ∧
    (p.update_unrealized_pnl price).sells = p.sells ∧
    (p.update_unrealized_pnl price).position_value = p.position_value ∧
    (p.update_unrealized_pnl price).realized_pnl = p.realized_pnl := by
  unfold Position.update_unrealized_pnl
  split <;> exact ⟨rfl, rfl, rfl, rfl, rfl⟩

/-- Updating equity never changes the trade totals or pnl fields. -/
theorem update_equity_fields (p : Position) (price cash : ℚ) :
    (p.update_equity price cash).net = p.net ∧
    (p.update_equity price cash).buys = p.buys ∧
    (p.update_equity price cash).sells = p.sells ∧
    (p.update_equity price cash).position_value = p.position_value ∧
    (p.update_equity price cash).realized_pnl = p.realized_pnl ∧
    (p.update_equity price cash).unrealized_pnl = p.unrealized_pnl :=
  ⟨rfl, rfl, rfl, rfl, rfl, rfl⟩

/-! ### Incremental and spec-modelled EWMA formulations (for C7) -/

/-- One incremental step of the adjusted EWM mean: numerator and
denominator recursions `num' = (1-a)·num + x`, `den' = (1-a)·den + 1`. -/
def ewmIncrStep (a : ℚ) (st : ℚ × ℚ) (x : ℚ) : ℚ × ℚ :=
  ((1 - a) * st.1 + x, (1 - a) * st.2 + 1)

/-- The adjusted EWM mean maintained incrementally as each close
arrives, no re-scan of history. -/
def ewmIncrLast (a : ℚ) (xs : List ℚ) : ℚ :=
  let st := xs.foldl (ewmIncrStep a) (0, 0)
  st.1 / st.2

/-- Modelled from the spec's words, for the refinement comparison of C7:
the plain "incremental recursive average" `y' = (1-a)·y + a·x` applied
as each new close arrives (first observation initialises the average). -/
def ewmRecursiveSpec (a : ℚ) : List ℚ → ℚ
  | [] => 0
  | x :: rest => rest.foldl (fun y z => (1 - a) * y + a * z) x

/-- Modelled from the spec's words: crossover signal built from the
recursive averages with `alpha = 2/(span+1)`. -/
def macRecursiveSpec (xs : List ℚ) (fast slow : ℕ) : ℚ :=
  ewmRecursiveSpec (2 / ((fast : ℚ) + 1)) xs -
    ewmRecursiveSpec (2 / ((slow : ℚ) + 1)) xs

/-- Unfolding the incremental numerator/denominator fold over a series:
it computes exactly the adjusted weighted sum and the weight total. -/
theorem foldl_ewmIncrStep (a c d : ℚ) (xs : List ℚ) :
    xs.foldl (ewmIncrStep a) (c, d) =
      (c * (1 - a) ^ xs.length + ewmWeightedSum a xs,
       d * (1 - a) ^ xs.length + ewmWeightTotal a xs.length) := by
  induction xs generalizing c d with
  | nil => simp [ewmWeightedSum, ewmWeightTotal]
  | cons x rest ih =>
    show rest.foldl (ewmIncrStep a) (ewmIncrStep a (c, d) x) = _
    rw [show ewmIncrStep a (c, d) x = ((1 - a) * c + x, (1 - a) * d + 1) from rfl, ih]
    simp only [ewmWeightedSum, ewmWeightTotal, List.length_cons, Prod.mk.injEq]
    constructor <;> ring

/-! ### Fill sequences applied to a fresh position (for C3) -/

/-- One fill event as applied to the position ledger. -/
structure Fill where
  ts : ℕ
  is_buy : Bool
  qty : ℚ
  price : ℚ
deriving DecidableEq

/-- Apply a sequence of fills through `Position.event_fill`. -/
def applyFills (p : Position) (fs : List Fill) : Position :=
  fs.foldl (fun q f => q.event_fill f.ts f.is_buy f.qty f.price) p

/-- Total of sell proceeds minus buy costs over a fill sequence (the
negative of the cumulative signed notional traded). -/
def signedCashFlow (fs : List Fill) : ℚ :=
  (fs.map (fun f => f.qty * f.price * (if f.is_buy then -1 else 1))).sum

/-- `position_value` accumulates exactly the signed cash flow. -/
theorem applyFills_position_value (p : Position) (fs : List Fill) :
    (applyFills p fs).position_value = p.position_value + signedCashFlow fs := by
  induction fs generalizing p with
  | nil => simp [applyFills, signedCashFlow]
  | cons f rest ih =>
    show (applyFills (p.event_fill f.ts f.is_buy f.qty f.price) rest).position_value = _
    rw [ih]
    simp only [Position.event_fill, signedCashFlow, List.map_cons, List.sum_cons]
    ring

/-- `event_fill` snapshots `realized_pnl` exactly when the new net is
zero, and leaves it unchanged otherwise. -/
theorem event_fill_realized (p : Position) (ts : ℕ) (ib : Bool) (q pr : ℚ) :
    ((p.event_fill ts ib q pr).net ≠ 0 →
        (p.event_fill ts ib q pr).realized_pnl = p.realized_pnl) ∧
    ((p.event_fill ts ib q pr).net = 0 →
        (p.event_fill ts ib q pr).realized_pnl =
          (p.event_fill ts ib q pr).position_value) :=
  ⟨fun h => if_neg h, fun h => if_pos h⟩

/-! ### Concrete demonstration states (used by witnesses and
counterexamples) -/

/-- A strategy that has seen one tick (timestamp 0, close 1). -/
def macDemo1 : MACStrategy :=
  { symbol := "XBTUSD", prices := [⟨0, 1, 1⟩] }

/-- A strategy that has seen closes 0 and 1. -/
def macDemo2 : MACStrategy :=
  { symbol := "XBTUSD", prices := [⟨0, 0, 0⟩, ⟨1, 1, 0⟩] }

/-- A strategy whose stored closes are 0, 0 — the next tick will give a
defined volatility and a positive signal. -/
def macDemo3 : MACStrategy :=
  { symbol := "XBTUSD", prices := [⟨0, 0, 0⟩, ⟨1, 0, 0⟩] }

/-- A backtester with zero cash and one pending buy order from
timestamp 0: the next tick halts it on insufficient balance. -/
def haltDemo : Backtester where
  target_symbol := "XBTUSD"
  strategy := { symbol := "XBTUSD" }
  unfilled_orders := [{ timestamp := 0, symbol := "XBTUSD", qty := 100,
                        is_buy := true, is_market_order := true }]
  cash := 0

/-- The tick on which `haltDemo` runs out of cash. -/
def haltTick : TickData := ⟨1, 5, 5, 0⟩

/-- A long position of 100 contracts bought at 101. -/
def posDemo : Position :=
  { symbol := "XBTUSD", buys := 100, net := 100, position_value := -10100 }

/-- A backtester holding `posDemo` after its last tick
(timestamp 2, open 104, close 103). -/
def bC : Backtester where
  target_symbol := "XBTUSD"
  strategy := { symbol := "XBTUSD", is_long := true }
  position := some posDemo
  current_prices := some ⟨2, 104, 103, 0⟩
  cash := 989900

/-- The offsetting order the liquidation block submits for `bC`. -/
def oC : Order :=
  { timestamp := 2, symbol := "XBTUSD", qty := 100, is_buy := false,
    is_market_order := true }

/-! ### Evaluation facts about the demonstration states -/

/-- `haltDemo` halts on its first tick: the pending buy of 100 at open
price 5 drives cash to -500. -/
theorem haltDemo_halts : (haltDemo.handle_incoming_tick haltTick).2 = true := by
  norm_num [Backtester.handle_incoming_tick, Backtester.match_order_book, matchOrders,
    matchCondition, Backtester.update_filled_position, Backtester.get_position,
    Backtester.get_timestamp, Backtester.handle_order, Backtester.print_position_status,
    dfSet, fillRecord, MACStrategy.on_tick_event, MACStrategy.store_prices, storeRow,
    MACStrategy.calculate_mac, MACStrategy.closes, ewmLast, ewmWeightedSum, ewmWeightTotal,
    MACStrategy.calculate_volatility, diffs, takeLast, listMean, sampleVar,
    MACStrategy.mkOrder, MACStrategy.on_buy_signal, MACStrategy.on_sell_signal,
    MACStrategy.update_position_status, fltMul, fltGt, fltLt, fltNeg,
    Position.event_fill, haltDemo, haltTick, STARTING_CASH, NUM_CONTRACTS]

/-- The bare `update_filled_position` call of the `haltDemo` fill halts. -/
theorem haltDemo_fill_halts :
    (haltDemo.update_filled_position 100 true 5 1).2 = true := by
  norm_num [Backtester.update_filled_position, Backtester.get_position,
    Position.event_fill, dfSet, MACStrategy.update_position_status,
    haltDemo, STARTING_CASH]

/-! ### Claim theorems -/

/-- C2: after every fill applied to the ledger, `net` equals
`buys - sells` exactly; the fill halts (`InsufficientBalance`, the
source's `sys.exit`) precisely when cash has become negative, so cash is
never negative without the halt; and a halting tick ends the simulation
immediately — the remaining ticks are never processed. -/
theorem fill_accounting_and_halt (b : Backtester) (qty : ℚ) (is_buy : Bool)
    (price : ℚ) (ts : ℕ) (b2 : Backtester) (t : TickData)
    (rest : List TickData) (hhalt : (b2.handle_incoming_tick t).2 = true) :
    (∃ p, ((b.update_filled_position qty is_buy price ts).1).position = some p ∧
        p.net = p.buys - p.sells) ∧
    ((b.update_filled_position qty is_buy price ts).2 = false ↔
        0 ≤ ((b.update_filled_position qty is_buy price ts).1).cash) ∧
    runTicks b2 (t :: rest) = ((b2.handle_incoming_tick t).1, true) := by
  refine ⟨⟨_, rfl, rfl⟩, ?_, ?_⟩
  · simp [Backtester.update_filled_position, not_lt]
  · simp [runTicks, hhalt]

/-- Witness for C2 at a concrete halting run: one pending buy of 100 at
open price 5 with zero cash halts the simulation on its first tick. -/
theorem fill_accounting_and_halt_witness :
    runTicks haltDemo [haltTick] =
      ((haltDemo.handle_incoming_tick haltTick).1, true) :=
  (fill_accounting_and_halt haltDemo 100 true 5 1 haltDemo haltTick []
    haltDemo_halts).2.2

/-- C3: over any fill sequence applied to a fresh position,
`realized_pnl` changes only on a fill that brings `net` to exactly 0,
and at that instant equals the cumulative sell proceeds minus buy costs
(the negative of the cumulative signed notional) since the start. -/
theorem realized_pnl_at_flat (fs : List Fill) (f : Fill) :
    ((applyFills {} (fs ++ [f])).net ≠ 0 →
        (applyFills {} (fs ++ [f])).realized_pnl =
          (applyFills {} fs).realized_pnl) ∧
    ((applyFills {} (fs ++ [f])).net = 0 →
        (applyFills {} (fs ++ [f])).realized_pnl =
          signedCashFlow (fs ++ [f])) := by
  have happ : applyFills {} (fs ++ [f]) =
      (applyFills {} fs).event_fill f.ts f.is_buy f.qty f.price := by
    simp [applyFills, List.foldl_append]
  constructor
  · intro h
    rw [happ] at h ⊢
    exact (event_fill_realized (applyFills {} fs) f.ts f.is_buy f.qty f.price).1 h
  · intro h
    rw [happ] at h ⊢
    rw [(event_fill_realized (applyFills {} fs) f.ts f.is_buy f.qty f.price).2 h]
    have hv := applyFills_position_value {} (fs ++ [f])
    rw [happ] at hv
    rw [hv]
    simp

/-- Witness for C3: a buy of 100 at 101 followed by a sell of 100 at 103
nets to zero and realizes exactly the signed cash flow (200). -/
theorem realized_pnl_at_flat_witness :
    (applyFills {} ([⟨0, true, 100, 101⟩] ++ [⟨1, false, 100, 103⟩])).realized_pnl =
      signedCashFlow ([⟨0, true, 100, 101⟩] ++ [⟨1, false, 100, 103⟩]) :=
  (realized_pnl_at_flat [⟨0, true, 100, 101⟩] ⟨1, false, 100, 103⟩).2
    (by norm_num [applyFills, Position.event_fill])

/-- C4: every mark-to-market call sets `unrealized_pnl` to 0 when the
position is flat and to `price * net + position_value` otherwise, and
every equity update sets `equity = cash + price * net`. -/
theorem mark_to_market_invariants (p : Position) (price cash : ℚ) :
    (p.net = 0 → (p.update_unrealized_pnl price).unrealized_pnl = 0) ∧
    (p.net ≠ 0 → (p.update_unrealized_pnl price).unrealized_pnl =
        price * p.net + p.position_value) ∧
    (p.update_equity price cash).equity = cash + price * p.net := by
  refine ⟨fun h => ?_, fun h => ?_, rfl⟩
  · simp [Position.update_unrealized_pnl, h]
  · simp [Position.update_unrealized_pnl, h]

/-- Witness for C4 at concrete flat and non-flat positions. -/
theorem mark_to_market_invariants_witness :
    (({} : Position).update_unrealized_pnl 5).unrealized_pnl = 0 ∧
    ((posDemo.update_unrealized_pnl 103).unrealized_pnl =
      103 * posDemo.net + posDemo.position_value) :=
  ⟨(mark_to_market_invariants {} 5 0).1 rfl,
   (mark_to_market_invariants posDemo 103 0).2.1 (by norm_num [posDemo])⟩

/-- C10 (implicit): the fill is not atomic with the balance check — when
`update_filled_position` halts on insufficient balance, the position
ledger and the realized-pnl output series already contain the offending
fill, and cash is already negative. -/
theorem fill_before_balance_check (b : Backtester) (qty : ℚ) (is_buy : Bool)
    (price : ℚ) (ts : ℕ)
    (hhalt : (b.update_filled_position qty is_buy price ts).2 = true) :
    ((b.update_filled_position qty is_buy price ts).1).position =
      some ((b.get_position).event_fill ts is_buy qty price) ∧
    ((b.update_filled_position qty is_buy price ts).1).rpnl =
      dfSet b.rpnl ts
        ((b.get_position).event_fill ts is_buy qty price).realized_pnl ∧
    ((b.update_filled_position qty is_buy price ts).1).cash < 0 := by
  refine ⟨rfl, rfl, ?_⟩
  simpa [Backtester.update_filled_position] using hhalt

/-- Witness for C10: the halting fill of `haltDemo` leaves the bought
quantity recorded in the ledger while cash is negative. -/
theorem fill_before_balance_check_witness :
    ((haltDemo.update_filled_position 100 true 5 1).1).position =
      some ((haltDemo.get_position).event_fill 1 true 100 5) ∧
    ((haltDemo.update_filled_position 100 true 5 1).1).cash < 0 :=
  ⟨(fill_before_balance_check haltDemo 100 true 5 1 haltDemo_fill_halts).1,
   (fill_before_balance_check haltDemo 100 true 5 1 haltDemo_fill_halts).2.2⟩

/-- After the third close the demo strategy has a defined volatility. -/
theorem macDemo3_vol :
    (macDemo3.store_prices ⟨2, 1, 1, 0⟩).calculate_volatility = some (1/2) := by
  norm_num [MACStrategy.calculate_volatility, MACStrategy.store_prices, storeRow,
    diffs, takeLast, listMean, sampleVar, macDemo3]

/-- After the third close the demo strategy's crossover signal is
positive. -/
theorem macDemo3_mac_pos :
    0 < (macDemo3.store_prices ⟨2, 1, 1, 0⟩).calculate_mac 20 50 := by
  norm_num [MACStrategy.calculate_mac, MACStrategy.closes, MACStrategy.store_prices,
    storeRow, ewmLast, ewmWeightedSum, ewmWeightTotal, macDemo3]

/-- On its third tick the demo strategy sends exactly one buy order. -/
theorem macDemo3_sends :
    (macDemo3.on_tick_event ⟨2, 1, 1, 0⟩).2 =
      [(macDemo3.store_prices ⟨2, 1, 1, 0⟩).mkOrder true 2] := by
  norm_num [MACStrategy.on_tick_event, MACStrategy.store_prices, storeRow,
    MACStrategy.calculate_mac, MACStrategy.closes, ewmLast, ewmWeightedSum,
    ewmWeightTotal, MACStrategy.calculate_volatility, diffs, takeLast, listMean,
    sampleVar, MACStrategy.on_buy_signal, MACStrategy.on_sell_signal,
    fltMul, fltGt, fltLt, fltNeg, macDemo3]

/-- C6 counterexample: on the second tick of a run the signal is nonzero
(3/200) and the strategy is flat, yet no directional request is issued —
the NaN volatility (only one first difference exists) makes the
threshold NaN and both comparisons false, so the undefined volatility
does suppress the signal. -/
theorem vol_gate_nan_counterexample :
    (macDemo1.store_prices ⟨1, 2, 2, 0⟩).calculate_mac 20 50 ≠ 0 ∧
    macDemo1.is_long = false ∧ macDemo1.is_short = false ∧
    (macDemo1.on_tick_event ⟨1, 2, 2, 0⟩).2 = [] := by
  refine ⟨?_, rfl, rfl, ?_⟩
  · norm_num [MACStrategy.calculate_mac, MACStrategy.closes, MACStrategy.store_prices,
      storeRow, ewmLast, ewmWeightedSum, ewmWeightTotal, macDemo1]
  · norm_num [MACStrategy.on_tick_event, MACStrategy.store_prices, storeRow,
      MACStrategy.calculate_mac, MACStrategy.closes, ewmLast, ewmWeightedSum,
      ewmWeightTotal, MACStrategy.calculate_volatility, diffs, takeLast, listMean,
      sampleVar, fltMul, fltGt, fltLt, fltNeg, macDemo1]

/-- C6 (amended): with the hard-coded `volatility_fraction = 0`, when the
volatility is defined the threshold is exactly 0 and any nonzero signal
triggers a directional request subject only to the current-position
suppression; but when the volatility is NaN (fewer than two first
differences stored), the NaN threshold makes both comparisons false and
no request is issued, regardless of the signal. -/
theorem vol_gate_amended (s : MACStrategy) (md : TickData) :
    ((s.store_prices md).calculate_volatility = none →
        (s.on_tick_event md).2 = []) ∧
    (∀ v, (s.store_prices md).calculate_volatility = some v →
        ((0 < (s.store_prices md).calculate_mac 20 50 ∧ s.is_long = false) →
            (s.on_tick_event md).2 =
              [(s.store_prices md).mkOrder true md.timestamp]) ∧
        ((0 < (s.store_prices md).calculate_mac 20 50 ∧ s.is_long = true) →
            (s.on_tick_event md).2 = []) ∧
        (((s.store_prices md).calculate_mac 20 50 < 0 ∧ s.is_short = false) →
            (s.on_tick_event md).2 =
              [(s.store_prices md).mkOrder false md.timestamp]) ∧
        (((s.store_prices md).calculate_mac 20 50 < 0 ∧ s.is_short = true) →
            (s.on_tick_event md).2 = []) ∧
        ((s.store_prices md).calculate_mac 20 50 = 0 →
            (s.on_tick_event md).2 = [])) := by
  constructor
  · intro hv
    simp only [MACStrategy.on_tick_event]
    rw [hv]
    simp [fltMul, fltGt, fltLt, fltNeg]
  · intro v hv
    have hlong : (s.store_prices md).is_long = s.is_long := rfl
    have hshort : (s.store_prices md).is_short = s.is_short := rfl
    refine ⟨?_, ?_, ?_, ?_, ?_⟩
    · rintro ⟨hsig, hflag⟩
      simp only [MACStrategy.on_tick_event]
      rw [hv]
      simp [fltMul, fltGt, MACStrategy.on_buy_signal, hlong, hflag, hsig]
    · rintro ⟨hsig, hflag⟩
      simp only [MACStrategy.on_tick_event]
      rw [hv]
      simp [fltMul, fltGt, MACStrategy.on_buy_signal, hlong, hflag, hsig]
    · rintro ⟨hsig, hflag⟩
      simp only [MACStrategy.on_tick_event]
      rw [hv]
      simp [fltMul, fltGt, fltLt, fltNeg, MACStrategy.on_sell_signal,
        hshort, hflag, hsig, asymm hsig]
    · rintro ⟨hsig, hflag⟩
      simp only [MACStrategy.on_tick_event]
      rw [hv]
      simp [fltMul, fltGt, fltLt, fltNeg, MACStrategy.on_sell_signal,
        hshort, hflag, hsig, asymm hsig]
    · intro hsig
      simp only [MACStrategy.on_tick_event]
      rw [hv]
      simp [fltMul, fltGt, fltLt, fltNeg, hsig]

/-- Witness for C6 (amended): on `macDemo3`'s third tick the volatility
is defined (1/2), the signal is positive and the strategy is flat, so
exactly one buy request is issued. -/
theorem vol_gate_amended_witness :
    (macDemo3.on_tick_event ⟨2, 1, 1, 0⟩).2 =
      [(macDemo3.store_prices ⟨2, 1, 1, 0⟩).mkOrder true 2] :=
  ((vol_gate_amended macDemo3 ⟨2, 1, 1, 0⟩).2 (1/2) macDemo3_vol).1
    ⟨macDemo3_mac_pos, rfl⟩

/-- C7 counterexample: on the close series 0, 1 the code's re-scanned
signal (3/200, from the adjusted, weight-normalized EWM mean that pandas
computes) differs from the plain incremental recursive average the spec
describes (20/357). -/
theorem mac_recursive_counterexample :
    macDemo2.calculate_mac 20 50 ≠ macRecursiveSpec macDemo2.closes 20 50 := by
  norm_num [MACStrategy.calculate_mac, MACStrategy.closes, ewmLast, ewmWeightedSum,
    ewmWeightTotal, macRecursiveSpec, ewmRecursiveSpec, macDemo2]

/-- C7 (amended): for every close-price history the crossover signal the
code computes by re-scanning the stored series equals fast minus slow
*adjusted* EWMA (weights `(1-alpha)^age`, normalized; `alpha =
2/(span+1)`), and that adjusted EWMA is computable incrementally by the
numerator/denominator recursion as each close arrives — but it is not
the plain recursive average `y' = (1-a)y + a·x`. -/
theorem mac_rescan_incremental (s : MACStrategy) (fast slow : ℕ) :
    s.calculate_mac fast slow =
      ewmIncrLast (2 / ((fast : ℚ) + 1)) s.closes -
        ewmIncrLast (2 / ((slow : ℚ) + 1)) s.closes := by
  unfold MACStrategy.calculate_mac ewmIncrLast ewmLast
  rw [foldl_ewmIncrStep, foldl_ewmIncrStep]
  norm_num

/-- C8: on every tick the strategy issues at most one directional
request, a buy only when not already long, a sell only when not already
short, and never opposing requests in the same step. -/
theorem single_directional_request (s : MACStrategy) (md : TickData) :
    (s.on_tick_event md).2.length ≤ 1 ∧
    (∀ o ∈ (s.on_tick_event md).2, o.is_buy = true → s.is_long = false) ∧
    (∀ o ∈ (s.on_tick_event md).2, o.is_buy = false → s.is_short = false) ∧
    ¬ ∃ o1 ∈ (s.on_tick_event md).2, ∃ o2 ∈ (s.on_tick_event md).2,
        o1.is_buy = true ∧ o2.is_buy = false := by
  simp only [MACStrategy.on_tick_event]
  split
  · simp only [MACStrategy.on_buy_signal]
    split
    next hl =>
      refine ⟨by simp, fun o ho hb => hl, fun o ho hb => ?_, ?_⟩
      · rw [List.mem_singleton] at ho
        subst ho
        simp [MACStrategy.mkOrder] at hb
      · rintro ⟨o1, h1, o2, h2, hb1, hb2⟩
        rw [List.mem_singleton] at h2
        subst h2
        simp [MACStrategy.mkOrder] at hb2
    next => exact ⟨by simp, by simp, by simp, by simp⟩
  · split
    · simp only [MACStrategy.on_sell_signal]
      split
      next hs =>
        refine ⟨by simp, fun o ho hb => ?_, fun o ho hb => hs, ?_⟩
        · rw [List.mem_singleton] at ho
          subst ho
          simp [MACStrategy.mkOrder] at hb
        · rintro ⟨o1, h1, o2, h2, hb1, hb2⟩
          rw [List.mem_singleton] at h1
          subst h1
          simp [MACStrategy.mkOrder] at hb1
      next => exact ⟨by simp, by simp, by simp, by simp⟩
    · exact ⟨by simp, by simp, by simp, by simp⟩

/-- Witness for C8: the single buy request of `macDemo3`'s third tick is
issued while the strategy is not long. -/
theorem single_directional_request_witness :
    macDemo3.is_long = false ∧
    (macDemo3.on_tick_event ⟨2, 1, 1, 0⟩).2.length ≤ 1 :=
  ⟨(single_directional_request macDemo3 ⟨2, 1, 1, 0⟩).2.1
      ((macDemo3.store_prices ⟨2, 1, 1, 0⟩).mkOrder true 2)
      (by rw [macDemo3_sends]; exact List.mem_singleton.mpr rfl) rfl,
   (single_directional_request macDemo3 ⟨2, 1, 1, 0⟩).1⟩

/-- A pending buy order submitted at timestamp 0. -/
def oD : Order :=
  { timestamp := 0, symbol := "XBTUSD", qty := 100, is_buy := true,
    is_market_order := true }

/-- A funded backtester with `oD` pending. -/
def fillDemo : Backtester where
  target_symbol := "XBTUSD"
  strategy := { symbol := "XBTUSD" }
  unfilled_orders := [oD]

/-- The tick on which `oD` becomes eligible. -/
def tD : TickData := ⟨1, 5, 5, 0⟩

/-- Matching `fillDemo`'s book on `tD` does not run out of cash. -/
theorem fillDemo_no_halt :
    (matchOrders tD fillDemo fillDemo.unfilled_orders).halted = false := by
  norm_num [matchOrders, matchCondition, Backtester.update_filled_position,
    Backtester.get_position, Position.event_fill, dfSet,
    MACStrategy.update_position_status, fillDemo, oD, tD, STARTING_CASH]

/-- C1: a pending market order submitted at timestamp T is never filled
by a matching pass on a tick with timestamp <= T (it stays in the
pending set); on any tick with timestamp > T — in particular the first
such tick — its fill record carries that tick's open price and the
order's full quantity (the `qty` field of the record is the requested
one), and the order leaves the pending set; when it is the only pending
order, the ledger receives exactly the fill of its full quantity at the
tick's open price.  (The pass is assumed not to halt on insufficient
balance.) -/
theorem order_fill_delay (b : Backtester) (t : TickData) (o : Order)
    (hmem : o ∈ b.unfilled_orders) (hmkt : o.is_market_order = true)
    (hnh : (matchOrders t b b.unfilled_orders).halted = false) :
    (t.timestamp ≤ o.timestamp →
        o ∈ (matchOrders t b b.unfilled_orders).remaining ∧
        fillRecord o t ∉ (matchOrders t b b.unfilled_orders).fills ∧
        o ∈ (b.match_order_book t).1.unfilled_orders) ∧
    (o.timestamp < t.timestamp →
        fillRecord o t ∈ (matchOrders t b b.unfilled_orders).fills ∧
        o ∉ (matchOrders t b b.unfilled_orders).remaining ∧
        o ∉ (b.match_order_book t).1.unfilled_orders) ∧
    (b.unfilled_orders = [o] → o.timestamp < t.timestamp →
        (matchOrders t b b.unfilled_orders).state =
          (b.update_filled_position o.qty o.is_buy t.open_price t.timestamp).1) := by
  obtain ⟨hrem, hfills⟩ := matchOrders_remaining_fills t b.unfilled_orders b hnh
  have hlen : 0 < b.unfilled_orders.length :=
    List.length_pos.mpr (List.ne_nil_of_mem hmem)
  have hbook : (b.match_order_book t).1.unfilled_orders =
      (matchOrders t b b.unfilled_orders).remaining := by
    simp only [Backtester.match_order_book]
    rw [if_pos hlen, if_neg (by simp [hnh])]
  refine ⟨?_, ?_, ?_⟩
  · intro hle
    have hc : matchCondition t o = false := by
      simp only [matchCondition, hmkt, Bool.true_and, decide_eq_false_iff_not]
      omega
    refine ⟨?_, ?_, ?_⟩
    · rw [hrem]
      exact List.mem_filter.mpr ⟨hmem, by simp [hc]⟩
    · rw [hfills]
      intro hin
      obtain ⟨x, hx, hfx⟩ := List.mem_map.mp hin
      have hxc : matchCondition t x = true := (List.mem_filter.mp hx).2
      have hxlt : x.timestamp < t.timestamp := by
        simp only [matchCondition, Bool.and_eq_true, decide_eq_true_eq] at hxc
        exact hxc.2
      have hxo := congrArg Order.timestamp hfx
      simp only [fillRecord] at hxo
      omega
    · rw [hbook, hrem]
      exact List.mem_filter.mpr ⟨hmem, by simp [hc]⟩
  · intro hlt
    have hc : matchCondition t o = true := by
      simp [matchCondition, hmkt, hlt]
    refine ⟨?_, ?_, ?_⟩
    · rw [hfills]
      exact List.mem_map.mpr ⟨o, List.mem_filter.mpr ⟨hmem, hc⟩, rfl⟩
    · rw [hrem]
      intro hin
      have hno := (List.mem_filter.mp hin).2
      simp [hc] at hno
    · rw [hbook, hrem]
      intro hin
      have hno := (List.mem_filter.mp hin).2
      simp [hc] at hno
  · intro hsing hlt
    have hc : matchCondition t o = true := by
      simp [matchCondition, hmkt, hlt]
    rw [hsing] at hnh ⊢
    simp only [matchOrders, hc, if_true] at hnh ⊢
    cases hr : (b.update_filled_position o.qty o.is_buy t.open_price t.timestamp).2 with
    | true => simp [hr] at hnh
    | false => simp [hr, matchOrders]

/-- Witness for C1: the pending `oD` (submitted at 0) is filled by the
tick at timestamp 1 — its fill record is produced and it leaves the
pending set. -/
theorem order_fill_delay_witness :
    fillRecord oD tD ∈ (matchOrders tD fillDemo fillDemo.unfilled_orders).fills ∧
    oD ∉ (matchOrders tD fillDemo fillDemo.unfilled_orders).remaining :=
  ⟨((order_fill_delay fillDemo tD oD (List.mem_singleton.mpr rfl) rfl
      fillDemo_no_halt).2.1 (by decide)).1,
   ((order_fill_delay fillDemo tD oD (List.mem_singleton.mpr rfl) rfl
      fillDemo_no_halt).2.1 (by decide)).2.1⟩

/-- Matching the book never touches the strategy's price history or the
current-prices container. -/
theorem mob_preserves (b : Backtester) (t : TickData) :
    ((b.match_order_book t).1).strategy.prices = b.strategy.prices ∧
    ((b.match_order_book t).1).current_prices = b.current_prices := by
  simp only [Backtester.match_order_book]
  split
  · split
    · exact ⟨(matchOrders_preserves t b.unfilled_orders b).1,
        (matchOrders_preserves t b.unfilled_orders b).2.1⟩
    · exact ⟨(matchOrders_preserves t b.unfilled_orders b).1,
        (matchOrders_preserves t b.unfilled_orders b).2.1⟩
  · exact ⟨rfl, rfl⟩

/-- The strategy phase stores this tick into the price history and
changes no other strategy field. -/
theorem afterStrategyPhase_strategy (b : Backtester) (t : TickData) :
    (b.afterStrategyPhase t).strategy = b.strategy.store_prices t := by
  unfold Backtester.afterStrategyPhase
  rw [foldl_handle_order]
  simp [MACStrategy.on_tick_event_fst]

/-- The strategy phase records this tick as the current prices. -/
theorem afterStrategyPhase_current (b : Backtester) (t : TickData) :
    (b.afterStrategyPhase t).current_prices = some t := by
  unfold Backtester.afterStrategyPhase
  rw [foldl_handle_order]

/-- C5: `handle_incoming_tick` runs the strategy phase (signal update
and decision) before matching, and after all fills it marks to market at
this tick's close: the resulting state is exactly
`print_position_status` of the post-match state, the price history the
signal saw is the pre-match history with only this tick added (matching
never touches it), and the unrealized-pnl and equity series each gain
the sample at this tick's timestamp computed from the post-fill position
at the close price. -/
theorem tick_pipeline_order (b : Backtester) (t : TickData) (p : Position)
    (hnh : ((b.afterStrategyPhase t).match_order_book t).2 = false)
    (hpos : ((b.afterStrategyPhase t).match_order_book t).1.position = some p) :
    b.handle_incoming_tick t =
      (((b.afterStrategyPhase t).match_order_book t).1.print_position_status t,
        false) ∧
    (b.afterStrategyPhase t).strategy.prices = (b.strategy.store_prices t).prices ∧
    ((b.afterStrategyPhase t).match_order_book t).1.strategy.prices =
      (b.strategy.store_prices t).prices ∧
    (b.handle_incoming_tick t).1.upnl =
      dfSet ((b.afterStrategyPhase t).match_order_book t).1.upnl t.timestamp
        ((p.update_unrealized_pnl t.last_price).unrealized_pnl) ∧
    (b.handle_incoming_tick t).1.equity_curve =
      dfSet ((b.afterStrategyPhase t).match_order_book t).1.equity_curve
        t.timestamp
        (((b.afterStrategyPhase t).match_order_book t).1.cash +
          t.last_price * p.net) := by
  have h0 : b.handle_incoming_tick t =
      (if ((b.afterStrategyPhase t).match_order_book t).2 = true then
         (((b.afterStrategyPhase t).match_order_book t).1, true)
       else
         (((b.afterStrategyPhase t).match_order_book t).1.print_position_status t,
           false)) := rfl
  have hmain : b.handle_incoming_tick t =
      (((b.afterStrategyPhase t).match_order_book t).1.print_position_status t,
        false) := by
    rw [h0, if_neg (by simp [hnh])]
  have hA := afterStrategyPhase_strategy b t
  have hmob := mob_preserves (b.afterStrategyPhase t) t
  have hcur2 : ((b.afterStrategyPhase t).match_order_book t).1.current_prices =
      some t := hmob.2.trans (afterStrategyPhase_current b t)
  have hts : ((b.afterStrategyPhase t).match_order_book t).1.get_timestamp =
      t.timestamp := by
    simp [Backtester.get_timestamp, hcur2]
  refine ⟨hmain, congrArg MACStrategy.prices hA,
    hmob.1.trans (congrArg MACStrategy.prices hA), ?_, ?_⟩
  · rw [hmain]
    simp only [Backtester.print_position_status, hpos, hts]
  · rw [hmain]
    simp only [Backtester.print_position_status, hpos, hts,
      Position.update_equity]
    rw [(update_unrealized_pnl_fields p t.last_price).1]

/-- On `bC`'s next tick the strategy sends nothing and matching finds no
eligible order, so the step does not halt. -/
theorem bC_tick_no_halt :
    ((bC.afterStrategyPhase ⟨3, 104, 103, 0⟩).match_order_book
      ⟨3, 104, 103, 0⟩).2 = false := by
  norm_num [Backtester.afterStrategyPhase, Backtester.match_order_book,
    matchOrders, matchCondition, Backtester.handle_order,
    MACStrategy.on_tick_event, MACStrategy.store_prices, storeRow,
    MACStrategy.calculate_mac, MACStrategy.closes, ewmLast, ewmWeightedSum,
    ewmWeightTotal, MACStrategy.calculate_volatility, diffs, takeLast,
    listMean, sampleVar, MACStrategy.on_buy_signal, MACStrategy.on_sell_signal,
    fltMul, fltGt, fltLt, fltNeg, bC, posDemo]

/-- `bC`'s position is untouched by the strategy and matching phases of
its next tick. -/
theorem bC_tick_position :
    ((bC.afterStrategyPhase ⟨3, 104, 103, 0⟩).match_order_book
      ⟨3, 104, 103, 0⟩).1.position = some posDemo := by
  norm_num [Backtester.afterStrategyPhase, Backtester.match_order_book,
    matchOrders, matchCondition, Backtester.handle_order,
    MACStrategy.on_tick_event, MACStrategy.store_prices, storeRow,
    MACStrategy.calculate_mac, MACStrategy.closes, ewmLast, ewmWeightedSum,
    ewmWeightTotal, MACStrategy.calculate_volatility, diffs, takeLast,
    listMean, sampleVar, MACStrategy.on_buy_signal, MACStrategy.on_sell_signal,
    fltMul, fltGt, fltLt, fltNeg, bC]

/-- Witness for C5: on `bC`'s tick at timestamp 3 (close 103) the
unrealized-pnl series gains exactly the sample computed from the
post-match position at the close price. -/
theorem tick_pipeline_order_witness :
    (bC.handle_incoming_tick ⟨3, 104, 103, 0⟩).1.upnl =
      dfSet ((bC.afterStrategyPhase ⟨3, 104, 103, 0⟩).match_order_book
          ⟨3, 104, 103, 0⟩).1.upnl 3
        ((posDemo.update_unrealized_pnl 103).unrealized_pnl) :=
  (tick_pipeline_order bC ⟨3, 104, 103, 0⟩ posDemo bC_tick_no_halt
    bC_tick_position).2.2.2.1

/-- C9 counterexample: in `bC`'s final liquidation the offsetting order
is submitted but never driven through the matching path — it is
ineligible under the matching rule (its timestamp equals the current
tick's) and stays pending and unfilled — while the position is
flattened by a direct fill at the tick's *close* price 103, not at the
open price 104 the matching fill rule would use (position value 200
rather than 300). -/
theorem liquidation_counterexample :
    (bC.liquidate).2 = false ∧
    (bC.liquidate).1.position.map Position.net = some 0 ∧
    (bC.liquidate).1.position.map Position.position_value = some 200 ∧
    (-10100 + 100 * 104 : ℚ) ≠ 200 ∧
    (bC.liquidate).1.unfilled_orders = [oC] ∧
    oC.is_filled = false ∧
    matchCondition ⟨2, 104, 103, 0⟩ oC = false := by
  refine ⟨?_, ?_, ?_, by norm_num, ?_, rfl, by decide⟩ <;>
    norm_num [Backtester.liquidate, Backtester.get_timestamp,
      Backtester.get_position, Backtester.handle_order,
      Backtester.update_filled_position, Backtester.match_order_book,
      matchOrders, matchCondition, Backtester.print_position_status, dfSet,
      Position.event_fill, Position.update_unrealized_pnl,
      Position.update_equity, MACStrategy.update_position_status,
      bC, posDemo, oC, STARTING_CASH]

/-- Reporting/marking to market never touches the pending order set. -/
theorem pps_unfilled (b : Backtester) (t : TickData) :
    (b.print_position_status t).unfilled_orders = b.unfilled_orders := by
  cases hx : b.position <;> simp [Backtester.print_position_status, hx]

/-- C9 (amended): the final liquidation submits an offsetting order
sized to the net position and flattens the ledger, but not through the
order book's fill path: the fill is applied directly at the last tick's
close price (the submitted order itself, timestamped at that same tick,
is never matched and remains pending), after which the ledger is marked
to market, leaving `net = 0` and `unrealized_pnl = 0`. -/
theorem liquidation_flattens (b : Backtester) (p : Position) (t : TickData)
    (hp : b.position = some p) (ht : b.current_prices = some t)
    (hinv : p.net = p.buys - p.sells)
    (hstale : ∀ o ∈ b.unfilled_orders, matchCondition t o = false)
    (hnh : (b.liquidate).2 = false) :
    ∃ q, (b.liquidate).1.position = some q ∧ q.net = 0 ∧
      q.unrealized_pnl = 0 ∧
      q.position_value = p.position_value +
        |p.net| * t.last_price * (if p.net < 0 then -1 else 1) ∧
      ({ timestamp := t.timestamp, symbol := b.target_symbol, qty := |p.net|,
         is_buy := if p.net < 0 then true else false,
         is_market_order := true } : Order) ∈ (b.liquidate).1.unfilled_orders := by
  have hts : b.get_timestamp = t.timestamp := by
    simp [Backtester.get_timestamp, ht]
  have hgp : b.get_position = p := by
    simp [Backtester.get_position, hp]
  simp only [Backtester.liquidate, ht, hts, hgp] at hnh ⊢
  set r := (b.handle_order
      { timestamp := t.timestamp, symbol := b.target_symbol, qty := |p.net|,
        is_buy := if p.net < 0 then true else false,
        is_market_order := true }).update_filled_position |p.net|
      (if p.net < 0 then true else false) t.last_price t.timestamp with hr
  have hr2 : r.2 = false := by
    cases hx : r.2 with
    | false => rfl
    | true =>
      rw [if_pos hx] at hnh
      simp at hnh
  rw [if_neg (by simp [hr2])] at hnh ⊢
  have huo : r.1.unfilled_orders = b.unfilled_orders ++
      [{ timestamp := t.timestamp, symbol := b.target_symbol, qty := |p.net|,
         is_buy := if p.net < 0 then true else false,
         is_market_order := true }] := by
    rw [hr]
    exact (ufp_preserves _ _ _ _ _).2.2.2.2.1
  have hall : ∀ o ∈ r.1.unfilled_orders, matchCondition t o = false := by
    rw [huo]
    intro o ho
    rcases List.mem_append.mp ho with h | h
    · exact hstale o h
    · rw [List.mem_singleton] at h
      subst h
      simp [matchCondition]
  have hlen : 0 < r.1.unfilled_orders.length := by
    rw [huo]
    simp
  have hmob : r.1.match_order_book t = (r.1, false) := by
    simp only [Backtester.match_order_book]
    rw [if_pos hlen, matchOrders_no_match t r.1.unfilled_orders r.1 hall]
    simp
  rw [hmob]
  rw [if_neg (by simp)]
  have hb1 : (b.handle_order
      { timestamp := t.timestamp, symbol := b.target_symbol, qty := |p.net|,
        is_buy := if p.net < 0 then true else false,
        is_market_order := true }).get_position = p := by
    simp [Backtester.get_position, Backtester.handle_order, hp]
  have hrpos : r.1.position =
      some (p.event_fill t.timestamp (if p.net < 0 then true else false)
        |p.net| t.last_price) := by
    rw [hr]
    simp only [Backtester.update_filled_position, hb1]
  have hpnet : (p.event_fill t.timestamp (if p.net < 0 then true else false)
      |p.net| t.last_price).net = 0 := by
    rcases lt_or_le p.net 0 with hneg | hge
    · have hd : (if p.net < 0 then true else false) = true := if_pos hneg
      simp only [Position.event_fill, hd, if_true]
      rw [abs_of_neg hneg]
      linarith [hinv]
    · have hd : (if p.net < 0 then true else false) = false :=
        if_neg (not_lt.mpr hge)
      simp only [Position.event_fill, hd, Bool.false_eq_true, if_false]
      rw [abs_of_nonneg hge]
      linarith [hinv]
  refine ⟨((p.event_fill t.timestamp (if p.net < 0 then true else false)
      |p.net| t.last_price).update_unrealized_pnl t.last_price).update_equity
      t.last_price r.1.cash, ?_, ?_, ?_, ?_, ?_⟩
  · simp only [Backtester.print_position_status, hrpos]
  · rw [(update_equity_fields _ _ _).1, (update_unrealized_pnl_fields _ _).1]
    exact hpnet
  · rw [(update_equity_fields _ _ _).2.2.2.2.2]
    rw [Position.update_unrealized_pnl, if_pos hpnet]
  · rw [(update_equity_fields _ _ _).2.2.2.1,
      (update_unrealized_pnl_fields _ _).2.2.2.1]
    rcases lt_or_le p.net 0 with hneg | hge
    · have hd : (if p.net < 0 then true else false) = true := if_pos hneg
      simp only [Position.event_fill, hd, if_true, if_pos hneg]
    · have hd : (if p.net < 0 then true else false) = false :=
        if_neg (not_lt.mpr hge)
      simp only [Position.event_fill, hd, Bool.false_eq_true, if_false,
        if_neg (not_lt.mpr hge)]
  · rw [pps_unfilled, huo]
    exact List.mem_append_right _ (List.mem_singleton.mpr rfl)

/-- Liquidating `bC` does not run out of cash. -/
theorem bC_liquidate_no_halt : (bC.liquidate).2 = false := by
  norm_num [Backtester.liquidate, Backtester.get_timestamp,
    Backtester.get_position, Backtester.handle_order,
    Backtester.update_filled_position, Backtester.match_order_book,
    matchOrders, matchCondition, Backtester.print_position_status, dfSet,
    Position.event_fill, Position.update_unrealized_pnl,
    Position.update_equity, MACStrategy.update_position_status,
    bC, posDemo, STARTING_CASH]

/-- Witness for C9 (amended): liquidating `bC` flattens the 100-contract
long at the close price 103 while its offsetting order stays pending. -/
theorem liquidation_flattens_witness :
    ∃ q, (bC.liquidate).1.position = some q ∧ q.net = 0 ∧
      q.unrealized_pnl = 0 ∧
      q.position_value = posDemo.position_value +
        |posDemo.net| * (103 : ℚ) * (if posDemo.net < 0 then -1 else 1) ∧
      ({ timestamp := 2, symbol := bC.target_symbol, qty := |posDemo.net|,
         is_buy := if posDemo.net < 0 then true else false,
         is_market_order := true } : Order) ∈ (bC.liquidate).1.unfilled_orders :=
  liquidation_flattens bC posDemo ⟨2, 104, 103, 0⟩ rfl rfl
    (by norm_num [posDemo]) (by simp [bC]) bC_liquidate_no_halt

end Backtest
